import Mathlib

/-!
Verification development for the API-access core of the `bc4` command-line
client: paginated fetching, Link-header parsing, token-bucket rate limiting,
the parallel activity aggregator's sort/filter/early-termination logic, the
HTTP error classification, and the Markdown↔rich-text converter's validator.

Each definition is a shallow embedding of the corresponding Go function.
Conventions used throughout:
* Go `time.Time` values are modelled as natural numbers (monotonic clock
  readings); `t.Before u` is `t < u`, `t.After u` is `u < t`.
* Go `time.Duration` values are natural numbers.
* Go strings are modelled as `String` / `List Char`; byte-level indexing in
  the Go source is over ASCII inputs, where the two coincide.
* Fallible operations return `Except`/`Option`; loops whose termination is
  not structural take an explicit fuel argument.
-/

namespace Bc4

/-! ## Activity aggregator data model (activity.go) -/

/-- `Person` (client.go): only the fields the activity logic reads. -/
structure Person where
  id : Int
  name : String
deriving DecidableEq, Repr

/-- `Recording` (activity.go): a Basecamp content item. Presentation-only
fields (URLs, bucket, parent, created-at) are omitted; the aggregator logic
reads `updatedAt` and `creator.id`. -/
structure Recording where
  id : Int
  title : String
  recType : String
  updatedAt : Nat
  creator : Person
deriving DecidableEq, Repr

/-- `ActivityListOptions` (activity.go). `since` is an optional timestamp,
`personId = 0` and `limit = 0` mean "no filter". -/
structure ActivityListOptions where
  since : Option Nat
  recordingTypes : List String
  personId : Int
  limit : Int
deriving DecidableEq, Repr

/-- The since-drop test inside `filterRecordings`:
`opts.Since != nil && r.UpdatedAt.Before(*opts.Since)`. -/
def sinceDrops (opts : ActivityListOptions) (r : Recording) : Bool :=
  match opts.since with
  | none => false
  | some t => decide (r.updatedAt < t)

/-- The person-drop test inside `filterRecordings`:
`opts.PersonID > 0 && r.Creator.ID != opts.PersonID`. -/
def personDrops (opts : ActivityListOptions) (r : Recording) : Bool :=
  decide (0 < opts.personId) && decide (r.creator.id ≠ opts.personId)

/-- The loop of `filterRecordings` (activity.go): `acc` is the `filtered`
slice built so far; appending is followed by the limit break. -/
def filterLoop (opts : ActivityListOptions) : List Recording → List Recording → List Recording
  | [], acc => acc
  | r :: rs, acc =>
    if sinceDrops opts r then filterLoop opts rs acc
    else if personDrops opts r then filterLoop opts rs acc
    else
      if decide (0 < opts.limit) && decide (opts.limit ≤ (acc.length + 1 : Int)) then acc ++ [r]
      else filterLoop opts rs (acc ++ [r])

/-- `filterRecordings` (activity.go): applies the `since`, `personId` and
`limit` filters in order. (The Go capacity pre-computation only affects
allocation and is not modelled.) -/
def filterRecordings (recordings : List Recording) (opts : ActivityListOptions) : List Recording :=
  filterLoop opts recordings []

/-- The early-termination page check installed by `listRecordingsByType`
(activity.go) when `since` is non-nil. The Go closure receives the decoded
page as `any`; the type assertion to `[]Recording` always succeeds in this
model (a failed assertion also returns `false` in Go), so the remaining
behaviour is: empty page → `false`; otherwise `!last.UpdatedAt.Before(cutoff)`. -/
def pageCheckSince (cutoff : Nat) (page : List Recording) : Bool :=
  match page.getLast? with
  | none => false
  | some last => ! decide (last.updatedAt < cutoff)

/-- Insertion step of the stable descending sort: a new element `x` (earlier
in the input) is placed before the first element whose `updatedAt` it ties or
exceeds, so equal timestamps keep input order. -/
def insertDesc (x : Recording) : List Recording → List Recording
  | [] => [x]
  | y :: ys => if y.updatedAt ≤ x.updatedAt then x :: y :: ys else y :: insertDesc x ys

/-- `sortRecordings` (activity.go): `sort.SliceStable` with
`less i j = recordings[i].UpdatedAt.After(recordings[j].UpdatedAt)`.
A stable sort's output is uniquely determined by the comparison, so the
Go merge-based stable sort is modelled by stable insertion sort. -/
def sortRecordings : List Recording → List Recording
  | [] => []
  | x :: xs => insertDesc x (sortRecordings xs)

/-! ## Rate limiter (ratelimiter.go) -/

/-- `RateLimiter` (ratelimiter.go). `tokens` and `maxTokens` are Go `int`
(modelled `Int`); `refillRate` is the duration of one token's refill and
`lastRefill` a clock reading (both `Nat`, see module conventions). -/
structure RateLimiter where
  tokens : Int
  maxTokens : Int
  refillRate : Nat
  lastRefill : Nat
deriving DecidableEq, Repr

/-- `NewRateLimiter(maxTokens, refillDuration)` at creation time `now`:
full bucket, `refillRate = refillDuration / maxTokens` (integer division). -/
def NewRateLimiter (maxTokens : Int) (refillDuration : Nat) (now : Nat) : RateLimiter where
  tokens := maxTokens
  maxTokens := maxTokens
  refillRate := refillDuration / maxTokens.toNat
  lastRefill := now

/-- `refill` (ratelimiter.go), observed at clock reading `now`:
`tokensToAdd = (now - lastRefill) / refillRate`; when positive, tokens are
topped up (capped at `maxTokens`) and `lastRefill` advances by
`tokensToAdd * refillRate`, not to `now`. With `Nat` clock values a clock
reading before `lastRefill` gives `tokensToAdd = 0`, exactly as the Go
negative-elapsed division does. -/
def refill (now : Nat) (rl : RateLimiter) : RateLimiter :=
  let tokensToAdd : Nat := (now - rl.lastRefill) / rl.refillRate
  if 0 < tokensToAdd then
    { rl with
      tokens := min (rl.tokens + (tokensToAdd : Int)) rl.maxTokens
      lastRefill := rl.lastRefill + tokensToAdd * rl.refillRate }
  else rl

/-- `TryAcquire` (ratelimiter.go): refill, then take a token if positive. -/
def TryAcquire (now : Nat) (rl : RateLimiter) : Bool × RateLimiter :=
  let rl' := refill now rl
  if 0 < rl'.tokens then (true, { rl' with tokens := rl'.tokens - 1 })
  else (false, rl')

/-- `Reset` (ratelimiter.go): full bucket, refill clock reset to `now`. -/
def Reset (now : Nat) (rl : RateLimiter) : RateLimiter :=
  { rl with tokens := rl.maxTokens, lastRefill := now }

/-- The loop of `Wait` (ratelimiter.go): each element of `nows` is the clock
reading at one iteration (initial entry, then each wake-up after sleeping).
The loop refills, takes a token if available, otherwise sleeps and retries.
An empty list models a call still blocked waiting. -/
def waitLoop : List Nat → RateLimiter → RateLimiter
  | [], rl => rl
  | now :: rest, rl =>
    let rl' := refill now rl
    if 0 < rl'.tokens then { rl' with tokens := rl'.tokens - 1 }
    else waitLoop rest rl'

/-- The spec's invariant `0 ≤ tokens ≤ maxTokens`. -/
def RateLimiterInv (rl : RateLimiter) : Prop :=
  0 ≤ rl.tokens ∧ rl.tokens ≤ rl.maxTokens

/-! ## HTTP error classification (client.go + internal/errors) -/

/-- The error taxonomy of the internal errors package (spec §7). -/
inductive BC4Error where
  | authenticationError (msg : String)
  | notFoundError (resource : String) (msg : String)
  | rateLimitedError (msg : String)
  | apiError (status : Nat) (body : String)
deriving DecidableEq, Repr

/-- Go `strings.Split(s, "/")` specialised to a single-character separator. -/
def splitOnChar (sep : Char) (s : String) : List String :=
  (s.data.foldr
    (fun c acc =>
      match acc with
      | [] => [[c]]
      | cur :: rest => if c = sep then [] :: cur :: rest else (c :: cur) :: rest)
    ([[]] : List (List Char))).map List.asString

/-- Go `strings.TrimSuffix(s, "s")`: drop one trailing `'s'` if present. -/
def trimSuffixS (s : String) : String :=
  match s.data.getLast? with
  | some 's' => (s.data.dropLast).asString
  | _ => s

/-- The 404 resource-name guess in `doRequestWithHeadersContext` (client.go):
split the path on `/`; with more than two parts, the second-to-last part with
a trailing `s` trimmed, else `"resource"`. -/
def resourceFromPath (path : String) : String :=
  let parts := splitOnChar '/' path
  if 2 < parts.length then trimSuffixS (parts.getD (parts.length - 2) "")
  else ("resource")

/-- Modelled from the spec: the internal errors package's `NewAPIError` is not
under `src/` (only its call site in `doRequestWithHeadersContext` is). Spec
§4.5/§7: "HTTP 429 → rate-limit error …; other ≥400 → generic API error
carrying status code and raw body", with `RateLimitedError` a kind distinct
from `APIError`. -/
def NewAPIError (status : Nat) (body : String) : BC4Error :=
  if status = 429 then .rateLimitedError body else .apiError status body

/-- The non-2xx classification in `doRequestWithHeadersContext` (client.go):
status ≥ 400 is classified — 401 → authentication error, 404 → not-found
error with a resource guess from the path, anything else via `NewAPIError`.
Statuses < 400 produce no error (`none`). -/
def classifyHTTPError (status : Nat) (path : String) (body : String) : Option BC4Error :=
  if 400 ≤ status then
    some (if status = 401 then .authenticationError ("unauthorized: " ++ body)
      else if status = 404 then .notFoundError (resourceFromPath path) ("not found: " ++ body)
      else NewAPIError status body)
  else none

/-! ## Paginated fetcher (pagination.go, `GetAll`) -/

/-- The reflection kinds `GetAll` distinguishes (`reflect.Kind`). -/
inductive GoKind where
  | ptr
  | slice
  | string
  | int
  | struct'
  | other
deriving DecidableEq, Repr

/-- The reflect type of the `result` argument: its kind and, for pointers,
the pointee's kind (`resultType.Elem().Kind()`; irrelevant otherwise). -/
structure GoArgType where
  kind : GoKind
  elem : GoKind
deriving DecidableEq, Repr

/-- The validation at the top of `GetAll`:
`resultType.Kind() == reflect.Ptr && resultType.Elem().Kind() == reflect.Slice`. -/
def isPtrToSlice (t : GoArgType) : Bool :=
  decide (t.kind = .ptr) && decide (t.elem = .slice)

/-- Outcome of one page request, indexed by request number: the HTTP request
fails (`doRequestContext` error), the body fails to JSON-decode, or a page of
items arrives together with the response's raw `Link` header. -/
inductive FetchResult (α : Type) where
  | requestError (msg : String)
  | decodeError (msg : String)
  | page (items : List α) (link : String)
deriving DecidableEq, Repr

/-- Observable effects of a `GetAll` call: rate-limiter waits, HTTP requests
attempted, the successfully decoded pages in order, and the contents of the
caller's result slice (which `GetAll` appends to in place via reflection). -/
structure GetAllTrace (α : Type) where
  waits : Nat
  requests : Nat
  pages : List (List α)
  result : List α
deriving DecidableEq, Repr

/-- The page-callback stop test in `GetAll`:
`pr.pageCheck != nil && !pr.pageCheck(pageSlice.Interface())`. -/
def pageCheckStops {α : Type} (pageCheck : Option (List α → Bool)) (items : List α) : Bool :=
  match pageCheck with
  | none => false
  | some f => ! f items

/-- The page loop of `GetAll` (pagination.go). `oracle` gives the outcome of
the n-th request; `next` abstracts `parseNextLinkURL` followed by
`extractPathFromURL` (with `next "" = ""` covering the empty-header check);
`fuel` bounds the number of iterations (the claims quantify over or choose
it). In source order: stop on empty path; rate-limiter wait; request; decode;
append; stop on empty page; stop on `maxPages`; stop when `pageCheck` says
so; follow the Link header. The context check and inter-page sleep have no
effect in this sequential model (a background context never errs). -/
def getAllLoop {α : Type} (oracle : Nat → FetchResult α) (next : String → String)
    (maxPages : Nat) (pageCheck : Option (List α → Bool)) :
    Nat → String → GetAllTrace α → Except String Unit × GetAllTrace α
  | 0, _, st => (.ok (), st)
  | fuel + 1, path, st =>
    if path = "" then (.ok (), st)
    else
      let st₁ := { st with waits := st.waits + 1, requests := st.requests + 1 }
      match oracle st.requests with
      | .requestError m => (.error ("failed to fetch paginated results: " ++ m), st₁)
      | .decodeError m => (.error ("failed to decode paginated results: " ++ m), st₁)
      | .page items link =>
        let st₂ := { st₁ with pages := st₁.pages ++ [items], result := st₁.result ++ items }
        if items.length = 0 then (.ok (), st₂)
        else if 0 < maxPages ∧ maxPages ≤ st₂.pages.length then (.ok (), st₂)
        else if pageCheckStops pageCheck items then (.ok (), st₂)
        else getAllLoop oracle next maxPages pageCheck fuel (next link) st₂

/-- `GetAll` (pagination.go): validate that `result` is a pointer to a slice
(before touching the rate limiter or the network), then run the page loop
starting from the caller's slice contents `init`. -/
def GetAll {α : Type} (rt : GoArgType) (oracle : Nat → FetchResult α) (next : String → String)
    (maxPages : Nat) (pageCheck : Option (List α → Bool)) (fuel : Nat) (path : String)
    (init : List α) : Except String Unit × GetAllTrace α :=
  if isPtrToSlice rt then
    getAllLoop oracle next maxPages pageCheck fuel path
      { waits := 0, requests := 0, pages := [], result := init }
  else (.error ("result must be a pointer to a slice"),
    { waits := 0, requests := 0, pages := [], result := init })

/-! ## Link-header parsing (pagination.go, `parseLinkHeaderEntries` /
`parseNextLinkURL`)

The Go parser is an index-based character scan. It is ported with the same
index arithmetic over an `Array Char`; the two `for` loops whose progress is
data-dependent take fuel, and fuel exhaustion (`none`) marks an execution
that never terminates, which the Go code can actually exhibit. -/

/-- The whitespace skipped by the entry scanner: `' '` and `'\t'`. -/
def isLinkWS (c : Char) : Bool :=
  decide (c = ' ') || decide (c = '\t')

/-- `s[i:j]` on the character array. -/
def sub (a : Array Char) (i j : Nat) : String :=
  (a.extract i j).toList.asString

/-- `for i < len && (ws) { i++ }`. -/
def skipLinkWS (a : Array Char) (i : Nat) : Nat :=
  if h : i < a.size then
    if isLinkWS a[i] then skipLinkWS a (i + 1) else i
  else i
termination_by a.size - i

/-- `for i < len && (ws || ';') { i++ }`. -/
def skipWSSemis (a : Array Char) (i : Nat) : Nat :=
  if h : i < a.size then
    if isLinkWS a[i] || decide (a[i] = ';') then skipWSSemis a (i + 1) else i
  else i
termination_by a.size - i

/-- `for i < len && s[i] != '>' { i++ }`. -/
def scanUntilGT (a : Array Char) (i : Nat) : Nat :=
  if h : i < a.size then
    if decide (a[i] = '>') then i else scanUntilGT a (i + 1)
  else i
termination_by a.size - i

/-- The parameter-name scan: `for i < len && s[i] != '=' && s[i] != ',' &&
s[i] != ' ' && s[i] != '\t' { i++ }`. -/
def scanParamName (a : Array Char) (i : Nat) : Nat :=
  if h : i < a.size then
    if decide (a[i] = '=') || decide (a[i] = ',') || isLinkWS a[i] then i
    else scanParamName a (i + 1)
  else i
termination_by a.size - i

/-- The unquoted-value scan: stop at whitespace, `';'` or `','`. -/
def scanUnquoted (a : Array Char) (i : Nat) : Nat :=
  if h : i < a.size then
    if isLinkWS a[i] || decide (a[i] = ';') || decide (a[i] = ',') then i
    else scanUnquoted a (i + 1)
  else i
termination_by a.size - i

/-- The quoted-value scan: the index of the first unescaped `'"'` at or after
`i` (`i == 0 || s[i-1] != '\\'` in the source), or `none` when it runs off
the end of the header. -/
def scanQuotedEnd (a : Array Char) (i : Nat) : Option Nat :=
  if h : i < a.size then
    if decide (a[i] = '"') && (decide (i = 0) || decide (a.getD (i - 1) ' ' ≠ '\\')) then some i
    else scanQuotedEnd a (i + 1)
  else none
termination_by a.size - i

/-- `LinkEntry` (pagination.go); the params map is an association list with
last-write-wins updates. -/
structure LinkEntry where
  URL : String
  params : List (String × String)
deriving DecidableEq, Repr

/-- Go map assignment `params[name] = value`. -/
def setParam (ps : List (String × String)) (name value : String) : List (String × String) :=
  if ps.any (fun p => p.1 == name) then
    ps.map (fun p => if p.1 == name then (name, value) else p)
  else ps ++ [(name, value)]

/-- Go map lookup `params[name]`. -/
def lookupParam (ps : List (String × String)) (name : String) : Option String :=
  (ps.find? (fun p => p.1 == name)).map (fun p => p.2)

/-- The parameter loop of `parseLinkHeaderEntries` (pagination.go lines
218–285), one fuel unit per iteration. Returns the index after the loop and
the accumulated params, or `none` on fuel exhaustion. Mirrors the source:
skip whitespace/semicolons; stop at end or after a comma; scan a parameter
name — when the scan does not advance (the current character is `'='`) the
Go loop repeats with unchanged state, which the recursion reproduces at the
same index; otherwise parse an optional (possibly quoted) value. -/
def parseParams (a : Array Char) : Nat → Nat → List (String × String) →
    Option (Nat × List (String × String))
  | 0, _, _ => none
  | fuel + 1, i, ps =>
    let i₀ := skipWSSemis a i
    if h : i₀ < a.size then
      if decide (a[i₀] = ',') then some (i₀ + 1, ps)
      else
        let j := scanParamName a i₀
        if i₀ < j then
          let name := sub a i₀ j
          let j₁ := skipLinkWS a j
          if h₁ : j₁ < a.size then
            if decide (a[j₁] = '=') then
              let j₂ := skipLinkWS a (j₁ + 1)
              if h₂ : j₂ < a.size then
                if decide (a[j₂] = '"') then
                  match scanQuotedEnd a (j₂ + 1) with
                  | some e => parseParams a fuel (e + 1) (setParam ps name (sub a (j₂ + 1) e))
                  | none => parseParams a fuel a.size (setParam ps name (""))
                else
                  let j₃ := scanUnquoted a j₂
                  parseParams a fuel j₃ (setParam ps name (sub a j₂ j₃))
              else parseParams a fuel j₂ (setParam ps name (""))
            else parseParams a fuel j₁ (setParam ps name (""))
          else parseParams a fuel j₁ (setParam ps name (""))
        else parseParams a fuel i₀ ps
    else some (i₀, ps)

/-- The entry loop of `parseLinkHeaderEntries` (pagination.go): skip
whitespace; at `'<'` read the URL up to `'>'` (a missing `'>'` leaves the URL
empty), parse parameters, and append the entry when its URL is non-empty; at
any other character advance by one. -/
def parseEntriesLoop (a : Array Char) : Nat → Nat → List LinkEntry → Option (List LinkEntry)
  | 0, _, _ => none
  | fuel + 1, i, acc =>
    let i₀ := skipLinkWS a i
    if h : i₀ < a.size then
      if decide (a[i₀] = '<') then
        let j := scanUntilGT a (i₀ + 1)
        let url := if j < a.size then sub a (i₀ + 1) j else ("")
        let i₁ := if j < a.size then j + 1 else j
        match parseParams a fuel i₁ [] with
        | none => none
        | some (i₂, ps) =>
          let acc' := if url ≠ "" then acc ++ [⟨url, ps⟩] else acc
          parseEntriesLoop a fuel i₂ acc'
      else parseEntriesLoop a fuel (i₀ + 1) acc
    else some acc

/-- `parseLinkHeaderEntries` (pagination.go) with explicit fuel. -/
def parseLinkHeaderEntries (fuel : Nat) (linkHeader : String) : Option (List LinkEntry) :=
  parseEntriesLoop linkHeader.data.toArray fuel 0 []

/-- Go `strings.Trim(s, "\"")`: strip leading and trailing runs of `'"'`. -/
def trimQuotes (s : String) : String :=
  (((s.data.dropWhile (fun c => c = '"')).reverse.dropWhile (fun c => c = '"')).reverse).asString

/-- Go `unicode.IsSpace` restricted to the ASCII space characters. -/
def isGoSpace (c : Char) : Bool :=
  decide (c = ' ') || decide (c = '\t') || decide (c = '\n') || decide (c = '\x0b') ||
    decide (c = '\x0c') || decide (c = '\r')

/-- Go `strings.Fields`: split on whitespace runs, dropping empty pieces. -/
def fieldsLoop : List Char → List Char → List String
  | [], cur => if cur.isEmpty then [] else [cur.reverse.asString]
  | c :: cs, cur =>
    if isGoSpace c then
      if cur.isEmpty then fieldsLoop cs [] else cur.reverse.asString :: fieldsLoop cs []
    else fieldsLoop cs (c :: cur)

/-- Go `strings.Fields`. -/
def fields (s : String) : List String :=
  fieldsLoop s.data []

/-- Go `strings.EqualFold` restricted to ASCII case folding. -/
def equalFold (s t : String) : Bool :=
  s.data.map Char.toLower == t.data.map Char.toLower

/-- `LinkEntry.hasRelation` (pagination.go): unquote the `rel` parameter,
split it on whitespace, and compare each token case-insensitively. -/
def hasRelation (le : LinkEntry) (rel : String) : Bool :=
  match lookupParam le.params ("rel") with
  | none => false
  | some relValue => (fields (trimQuotes relValue)).any (fun r => equalFold r rel)

/-- `parseNextLinkURL` (pagination.go) with explicit fuel: empty header →
empty result; otherwise the URL of the first entry having relation `next`,
or empty when none has it. `none` marks a non-terminating parse. -/
def parseNextLinkURL (fuel : Nat) (linkHeader : String) : Option String :=
  if linkHeader = "" then some ("")
  else
    match parseLinkHeaderEntries fuel linkHeader with
    | none => none
    | some entries =>
      some (match entries.find? (fun le => hasRelation le ("next")) with
        | some le => le.URL
        | none => "")

/-! ## Markdown → rich text converter (internal/markdown/converter.go)

String rewriting is modelled over `List Char`. `strings.ReplaceAll` becomes
`replaceAllL`; each Go regular expression used by the converter is a fixed
literal pattern and is ported as a dedicated scanning function with the
regexp package's leftmost, greedy, non-overlapping match semantics. -/

/-- Go regexp `\s`: `[\t\n\f\r ]`. -/
def isRegexSpace (c : Char) : Bool :=
  decide (c = ' ') || decide (c = '\t') || decide (c = '\n') || decide (c = '\x0c') ||
    decide (c = '\r')

/-- ASCII letter. -/
def isAlphaChar (c : Char) : Bool :=
  (decide ('a' ≤ c) && decide (c ≤ 'z')) || (decide ('A' ≤ c) && decide (c ≤ 'Z'))

/-- ASCII digit. -/
def isDigitChar (c : Char) : Bool :=
  decide ('0' ≤ c) && decide (c ≤ '9')

/-- Go regexp `\w`: `[0-9A-Za-z_]`. -/
def isWordChar (c : Char) : Bool :=
  isAlphaChar c || isDigitChar c || decide (c = '_')

/-- A character allowed after the first letter of a tag name in the
validator's tag regexp: `[a-zA-Z0-9-]`. -/
def isTagNameChar (c : Char) : Bool :=
  isAlphaChar c || isDigitChar c || decide (c = '-')

/-- Go `strings.ToLower` restricted to ASCII. -/
def toLowerStr (s : String) : String :=
  (s.data.map Char.toLower).asString

/-- Go `strings.TrimSpace` (ASCII space classes). -/
def trimSpace (s : String) : String :=
  (((s.data.dropWhile isGoSpace).reverse.dropWhile isGoSpace).reverse).asString

/-- Go `strings.Contains` over `List Char` (true at some position iff the
pattern is a prefix of the corresponding suffix; empty pattern always
contained). -/
def containsL (pat : List Char) : List Char → Bool
  | [] => pat.isEmpty
  | c :: cs => pat.isPrefixOf (c :: cs) || containsL pat cs

/-- Go `strings.Contains`. -/
def containsSubstring (s pat : String) : Bool :=
  containsL pat.data s.data

/-- Go `strings.ReplaceAll` over `List Char`: leftmost, non-overlapping.
(Every call site in the converter passes a non-empty pattern, so Go's
empty-pattern interleaving behaviour is irrelevant.) -/
def replaceAllL (pat repl : List Char) : List Char → List Char
  | [] => []
  | c :: cs =>
    if pat ≠ [] ∧ pat.isPrefixOf (c :: cs) then
      repl ++ replaceAllL pat repl ((c :: cs).drop pat.length)
    else c :: replaceAllL pat repl cs
termination_by s => s.length
decreasing_by
  · simp only [List.length_drop, List.length_cons]
    have hp : 0 < pat.length := List.length_pos.mpr (by tauto)
    omega
  · simp

/-- The regexp rewrites of shape `lit[^>]*>` → `repl` (used for
`<h2[^>]*>`…`<h6[^>]*>`, `<pre><code[^>]*>` and `<span[^>]*>`): at an
occurrence of the literal, the match extends over non-`'>'` characters to the
next `'>'`; without a closing `'>'` there is no match at this position. -/
def replaceUptoGT (pre repl : List Char) : List Char → List Char
  | [] => []
  | c :: cs =>
    if pre.isPrefixOf (c :: cs) then
      let rest := (c :: cs).drop pre.length
      let gap := rest.takeWhile (fun d => ¬ d = '>')
      if (rest.drop gap.length).head? = some '>' then
        repl ++ replaceUptoGT pre repl (rest.drop (gap.length + 1))
      else c :: replaceUptoGT pre repl cs
    else c :: replaceUptoGT pre repl cs
termination_by s => s.length
decreasing_by
  · simp only [List.length_drop, List.length_cons]
    omega
  · simp
  · simp

/-- The regexp rewrites of shape ` name="[^"]*"` → removal (the `style`,
`class` and `id` attribute strippers): the literal includes the leading space
and opening quote; the match runs to the next `'"'`. -/
def removeQuotedAttr (pre : List Char) : List Char → List Char
  | [] => []
  | c :: cs =>
    if pre.isPrefixOf (c :: cs) then
      let rest := (c :: cs).drop pre.length
      let gap := rest.takeWhile (fun d => ¬ d = '"')
      if (rest.drop gap.length).head? = some '"' then
        removeQuotedAttr pre (rest.drop (gap.length + 1))
      else c :: removeQuotedAttr pre cs
    else c :: removeQuotedAttr pre cs
termination_by s => s.length
decreasing_by
  · simp only [List.length_drop, List.length_cons]
    omega
  · simp
  · simp

/-- The HTML-comment regexp `<!-- [^>]* -->`: after the literal `"<!-- "`,
the match must reach the first `'>'`, whose three preceding characters must
be `" --"`. Matches are removed. -/
def removeComments : List Char → List Char
  | [] => []
  | c :: cs =>
    if ("<!-- ".data).isPrefixOf (c :: cs) then
      let mid := (c :: cs).drop 5
      let gap := mid.takeWhile (fun d => ¬ d = '>')
      if (mid.drop gap.length).head? = some '>' ∧ 3 ≤ gap.length ∧
          gap.drop (gap.length - 3) = [' ', '-', '-'] then
        removeComments (mid.drop (gap.length + 1))
      else c :: removeComments cs
    else c :: removeComments cs
termination_by s => s.length
decreasing_by
  · simp only [List.length_drop, List.length_cons]
    omega
  · simp
  · simp

/-- The regexp `\n{3,}` → `"\n\n"`: each maximal run of three or more
newlines collapses to two. -/
def collapseNewlines : List Char → List Char
  | '\n' :: '\n' :: '\n' :: rest =>
    '\n' :: '\n' :: collapseNewlines (rest.drop (rest.takeWhile (fun c => c = '\n')).length)
  | c :: cs => c :: collapseNewlines cs
  | [] => []
termination_by s => s.length
decreasing_by
  · simp only [List.length_drop, List.length_cons]
    omega
  · simp

/-- Go `strings.TrimRight(s, "\n")`. -/
def trimRightNewlines (s : List Char) : List Char :=
  (s.reverse.dropWhile (fun c => c = '\n')).reverse

/-- The per-heading-level rewrite inside `postProcessHTML`'s loop:
`<hN>` → `<h1>`, `</hN>` → `</h1>`, then `<hN[^>]*>` → `<h1>`. -/
def processHeading (s : List Char) (d : Char) : List Char :=
  let s₁ := replaceAllL ['<', 'h', d, '>'] ("<h1>".data) s
  let s₂ := replaceAllL ['<', '/', 'h', d, '>'] ("</h1>".data) s₁
  replaceUptoGT ['<', 'h', d] ("<h1>".data) s₂

/-- `cleanListFormatting` (converter.go): newline normalisation around list
tags, a trailing-newline trim, and the source's dead re-add branch (its inner
condition contradicts the outer one), translated literally. -/
def cleanListFormatting (s : List Char) : List Char :=
  let s₁ := replaceAllL ("</li><ul>".data) ("</li>\n<ul>".data) s
  let s₂ := replaceAllL ("</li><ol>".data) ("</li>\n<ol>".data) s₁
  let s₃ := replaceAllL ("</ul></li>".data) ("</ul>\n</li>".data) s₂
  let s₄ := replaceAllL ("</ol></li>".data) ("</ol>\n</li>".data) s₃
  let s₅ := replaceAllL ("</ul><".data) ("</ul>\n<".data) s₄
  let s₆ := replaceAllL ("</ol><".data) ("</ol>\n<".data) s₅
  let s₇ := replaceAllL ("</li><li>".data) ("</li>\n<li>".data) s₆
  let s₈ := trimRightNewlines s₇
  if ("</ul>".data.isSuffixOf s₈ ∨ "</ol>".data.isSuffixOf s₈) then
    if ¬ "</ul>".data.isSuffixOf s₈ ∧ ¬ "</ol>".data.isSuffixOf s₈ then s₈ ++ ['\n'] else s₈
  else s₈

/-- `stripUnsupportedTags` (converter.go): drop `span` tags, `style`/`class`/
`id` attributes, and the renderer's raw-HTML placremarks. -/
def stripUnsupportedTags (s : List Char) : List Char :=
  let s₁ := replaceUptoGT ("<span".data) [] s
  let s₂ := replaceAllL ("</span>".data) [] s₁
  let s₃ := removeQuotedAttr (" style=\"".data) s₂
  let s₄ := removeQuotedAttr (" class=\"".data) s₃
  let s₅ := removeQuotedAttr (" id=\"".data) s₄
  let s₆ := replaceAllL ("<!-- raw HTML omitted -->".data) [] s₅
  replaceAllL ("raw HTML".data) [] s₆

/-- `postProcessHTML` (converter.go): the ordered rewrite chain from the
renderer's standard HTML to Basecamp's dialect. -/
def postProcessHTML (html : String) : String :=
  let s₁ := replaceAllL ("<p>".data) ("<div>".data) html.data
  let s₂ := replaceAllL ("</p>".data) ("</div>".data) s₁
  let s₃ := ['2', '3', '4', '5', '6'].foldl processHeading s₂
  let s₄ := replaceAllL ("<del>".data) ("<strike>".data) s₃
  let s₅ := replaceAllL ("</del>".data) ("</strike>".data) s₄
  let s₆ := replaceAllL ("<code>".data) ("<pre>".data) s₅
  let s₇ := replaceAllL ("</code>".data) ("</pre>".data) s₆
  let s₈ := replaceUptoGT ("<pre><code".data) ("<pre>".data) s₇
  let s₉ := replaceAllL ("</code></pre>".data) ("</pre>".data) s₈
  let s₁₀ := replaceAllL ("<pre><pre>".data) ("<pre>".data) s₉
  let s₁₁ := replaceAllL ("</pre></pre>".data) ("</pre>".data) s₁₀
  let s₁₂ := replaceAllL ("<hr />".data) ("<br>\n".data) s₁₁
  let s₁₃ := replaceAllL ("<hr/>".data) ("<br>\n".data) s₁₂
  let s₁₄ := replaceAllL ("<hr>".data) ("<br>\n".data) s₁₃
  let s₁₅ := replaceAllL ("<br />".data) ("<br>".data) s₁₄
  let s₁₆ := cleanListFormatting s₁₅
  let s₁₇ := stripUnsupportedTags s₁₆
  let s₁₈ := replaceAllL ("&#39;".data) ("'".data) s₁₇
  let s₁₉ := removeComments s₁₈
  let s₂₀ := replaceAllL ("<blockquote>\n".data) ("<blockquote>".data) s₁₉
  let s₂₁ := replaceAllL ("\n</blockquote>".data) ("</blockquote>".data) s₂₀
  let s₂₂ := collapseNewlines s₂₁
  (replaceAllL ("<br>\n".data) ("<br>".data) s₂₂).asString

/-- The markdown-trigger substrings of `isSimplePlainText` (converter.go). -/
def markdownPatterns : List String :=
  ["**", "*", "~~", "`", "[", "]", "(", ")", "#", ">", "+",
    "<", ">", "&", "@", "http://", "https://", "mailto:"]

/-- The regexp `^[-+]\s` applied to the trimmed input. -/
def startsListMarker (s : List Char) : Bool :=
  match s with
  | c :: d :: _ => (decide (c = '-') || decide (c = '+')) && isRegexSpace d
  | _ => false

/-- The regexp `^\d+\.` applied to the trimmed input. -/
def startsNumberedMarker (s : List Char) : Bool :=
  let ds := s.takeWhile isDigitChar
  ! ds.isEmpty && decide ((s.drop ds.length).head? = some '.')

/-- `isSimplePlainText` (converter.go): single-line input containing no
markdown-trigger substring and no leading list marker. -/
def isSimplePlainText (input : String) : Bool :=
  if trimSpace input = "" then false
  else if containsSubstring input ("\n") then false
  else if markdownPatterns.any (fun p => containsSubstring input p) then false
  else if startsListMarker (trimSpace input).data then false
  else if startsNumberedMarker (trimSpace input).data then false
  else true

/-! ### `ValidateBasecampHTML` (converter.go) -/

/-- The tag allow-list of `ValidateBasecampHTML`. -/
def supportedTags : List String :=
  ["div", "h1", "br", "strong", "em", "strike", "a", "pre", "ol", "ul", "li",
    "blockquote", "table", "tr", "td", "th", "thead", "tbody", "details",
    "summary", "figure", "figcaption", "img", "bc-attachment"]

/-- One match attempt of the tag regexp `<(/?)([a-zA-Z][a-zA-Z0-9-]*)[^>]*>`
at a position just after a `'<'`: the captured tag name and the number of
characters consumed after the `'<'`, or `none` when the position does not
match (no letter after the optional slash, or no closing `'>'`). -/
def tagNameFrom (pre : Nat) (c : Char) (r : List Char) : Option (String × Nat) :=
  let run := r.takeWhile isTagNameChar
  let rest := r.drop run.length
  let gap := rest.takeWhile (fun d => ¬ d = '>')
  match rest.drop gap.length with
  | '>' :: _ => some ((c :: run).asString, pre + 1 + run.length + gap.length + 1)
  | _ => none

/-- Dispatch on the optional `(/?)` group of the tag regexp. -/
def tagFrom : List Char → Option (String × Nat)
  | '/' :: c :: r => if isAlphaChar c then tagNameFrom 1 c r else none
  | c :: r => if isAlphaChar c then tagNameFrom 0 c r else none
  | [] => none

/-- `tagRegex.FindAllStringSubmatch`: all captured tag names, leftmost,
non-overlapping; a failed attempt advances by one character. -/
def findTags : List Char → List String
  | [] => []
  | c :: rest =>
    if c = '<' then
      match tagFrom rest with
      | some (name, k) => name :: findTags (rest.drop k)
      | none => findTags rest
    else findTags rest
termination_by s => s.length
decreasing_by
  · simp only [List.length_drop, List.length_cons]
    omega
  · simp
  · simp

/-- The scan for the attribute regexp `<a\s+[^>]*\s+(\w+)=` inside one
region (the characters following a `"<a"` whose first character is `\s`).
A capture is a maximal `\w+` run that starts at region position ≥ 2 (so the
leading `\s+` and the pre-capture `\s+` are disjoint), is directly preceded
by a `\s` character, and is directly followed by `'='`; the region ends at
the first `'>'`. Greedy `[^>]*` makes the engine report the last such
capture; the returned count consumes through its `'='`, where the next
match attempt resumes. -/
def aTagScan : List Char → Nat → Bool → Option (List Char × Nat) → Option (List Char × Nat)
  | [], _, _, best => best
  | c :: cs, pos, prevWS, best =>
    if c = '>' then best
    else
      aTagScan cs (pos + 1) (isRegexSpace c)
        (if prevWS ∧ 2 ≤ pos ∧ isWordChar c then
          let run := cs.takeWhile isWordChar
          if (cs.drop run.length).head? = some '=' then some (c :: run, pos + run.length + 2)
          else best
        else best)

/-- `attrRegex.FindAllStringSubmatch` for `<a\s+[^>]*\s+(\w+)=`: captured
attribute names in match order. A successful match resumes after its `'='`;
a failed attempt advances by one character. -/
def attrScan : List Char → List String
  | [] => []
  | c :: 'a' :: d :: rest' =>
    if c = '<' ∧ isRegexSpace d then
      match aTagScan (d :: rest') 0 false none with
      | some (name, k) => name.asString :: attrScan ((d :: rest').drop k)
      | none => attrScan ('a' :: d :: rest')
    else attrScan ('a' :: d :: rest')
  | _ :: rest => attrScan rest
termination_by s => s.length
decreasing_by
  all_goals simp only [List.length_drop, List.length_cons]
  all_goals omega

/-- The validator's tag loop: the first tag (lowercased) outside the
allow-list yields its error message. -/
def firstUnsupportedTag : List String → Option String
  | [] => none
  | n :: ns =>
    let ln := toLowerStr n
    if supportedTags.contains ln then firstUnsupportedTag ns
    else some ("unsupported HTML tag: " ++ ln)

/-- The validator's attribute loop: the first captured `<a>` attribute
(lowercased) other than `href` yields its error message. -/
def firstBadAttr : List String → Option String
  | [] => none
  | n :: ns =>
    let ln := toLowerStr n
    if ln = "href" then firstBadAttr ns
    else some ("unsupported attribute '" ++ ln ++ "' on <a> tag (only 'href' is allowed)")

/-- `ValidateBasecampHTML` (converter.go): `none` means the Go function
returns a nil error; `some msg` carries the error message. -/
def ValidateBasecampHTML (html : String) : Option String :=
  if html = "" then none
  else
    match firstUnsupportedTag (findTags html.data) with
    | some e => some e
    | none => firstBadAttr (attrScan html.data)

/-- `MarkdownToRichText` (converter.go). The goldmark GFM renderer
(`c.md.Convert`) is an external library and enters as the parameter
`render`; everything around it is the source's control flow: trim, the
empty and simple-plain-text fast paths, post-processing, the empty-output
check, and validation of the final result. -/
def MarkdownToRichText (render : String → Except String String) (markdown : String) :
    Except String String :=
  let input := trimSpace markdown
  if input = "" then .ok ((""))
  else if isSimplePlainText input then .ok input
  else
    match render input with
    | .error e => .error ("failed to convert markdown: " ++ e)
    | .ok html =>
      let result := trimSpace (postProcessHTML html)
      if result = "" ∨ result = "<div></div>" then .ok ((""))
      else
        match ValidateBasecampHTML result with
        | some err => .error ("generated HTML contains unsupported tags: " ++ err)
        | none => .ok result

/-! # Theorems -/

/-! ## C2: HTTP 429 classification -/

/-- C2. For every HTTP response with status 429, the request core
(`doRequestWithHeadersContext`'s non-2xx classification, with the missing
errors package modelled from the spec) returns a rate-limit error, and that
error kind is distinct from the generic `APIError` kind used for other ≥400
statuses. -/
theorem C2_status429_rateLimited (path body : String) :
    classifyHTTPError 429 path body = some (.rateLimitedError body) ∧
    (∀ s b m, BC4Error.rateLimitedError m ≠ BC4Error.apiError s b) := by
  refine ⟨?_, ?_⟩
  · simp [classifyHTTPError, NewAPIError]
  · intro s b m h
    exact BC4Error.noConfusion h

/-! ## C10: `GetAll` argument validation -/

/-- C10. For every `result` argument whose reflect type is not
pointer-to-slice, `GetAll` returns the error `"result must be a pointer to a
slice"` immediately: no rate-limiter wait, no HTTP request, no page decoded,
and the caller's slice is left with its initial contents. -/
theorem C10_getAll_invalid_result {α : Type} (rt : GoArgType)
    (oracle : Nat → FetchResult α) (next : String → String) (maxPages : Nat)
    (pageCheck : Option (List α → Bool)) (fuel : Nat) (path : String) (init : List α)
    (h : ¬ isPtrToSlice rt = true) :
    GetAll rt oracle next maxPages pageCheck fuel path init =
      (.error ("result must be a pointer to a slice"),
        { waits := 0, requests := 0, pages := [], result := init }) := by
  simp [GetAll, h]

/-- Witness for C10 at a concrete non-slice pointer argument. -/
theorem C10_getAll_invalid_result_witness :
    GetAll (⟨.ptr, .string⟩ : GoArgType) (fun _ => FetchResult.requestError ("x"))
        (fun _ => "") 0 none 3 ("/items.json") [(7 : Nat)] =
      (.error ("result must be a pointer to a slice"),
        { waits := 0, requests := 0, pages := [], result := [7] }) :=
  C10_getAll_invalid_result _ _ _ _ _ _ _ _ (by decide)

/-! ## C4: early-termination page check -/

/-- C4 counterexample. A non-empty page whose last item's `updatedAt` equals
the cutoff: the claim says the check must return `false` (stop) for a last
item that is "not after" `since`, but the code's `!last.UpdatedAt.Before`
returns `true` (continue) at equality. -/
theorem C4_counterexample :
    pageCheckSince 5 [⟨1, "t", "Todo", 5, ⟨7, "p"⟩⟩] = true ∧
    (⟨1, "t", "Todo", 5, ⟨7, "p"⟩⟩ : Recording).updatedAt = 5 := by
  constructor
  · rfl
  · rfl

/-- C4 amended. For every non-empty decoded page, the check returns `false`
(stop after this page) iff the last item's `updatedAt` is strictly before
`since`; a page whose last item equals the cutoff continues pagination. -/
theorem C4_pageCheck_strictlyBefore (cutoff : Nat) (page : List Recording)
    (h : page ≠ []) :
    (pageCheckSince cutoff page = false ↔ (page.getLast h).updatedAt < cutoff) := by
  have h2 : page.getLast? = some (page.getLast h) := List.getLast?_eq_getLast page h
  simp [pageCheckSince, h2]

/-- Witness for C4 at a concrete page older than the cutoff. -/
theorem C4_pageCheck_strictlyBefore_witness :
    pageCheckSince 5 [(⟨1, "t", "Todo", 4, ⟨7, "p"⟩⟩ : Recording)] = false ↔ 4 < 5 :=
  C4_pageCheck_strictlyBefore 5 [⟨1, "t", "Todo", 4, ⟨7, "p"⟩⟩] (by decide)

/-! ## C3: the aggregator's `since` filter -/

/-- Elements of `filterLoop`'s output come from the accumulator or survive
the since-drop test. -/
theorem filterLoop_mem (opts : ActivityListOptions) (rs : List Recording) :
    ∀ acc r, r ∈ filterLoop opts rs acc → r ∈ acc ∨ sinceDrops opts r = false := by
  induction rs with
  | nil =>
    intro acc r h
    exact Or.inl h
  | cons x xs ih =>
    intro acc r h
    by_cases hs : sinceDrops opts x
    · simp only [filterLoop, hs, if_true] at h
      exact ih acc r h
    · simp only [filterLoop, hs, if_false, Bool.false_eq_true] at h
      by_cases hp : personDrops opts x
      · simp only [hp, if_true] at h
        exact ih acc r h
      · simp only [hp, if_false, Bool.false_eq_true] at h
        by_cases hl : (decide (0 < opts.limit) && decide (opts.limit ≤ (acc.length + 1 : Int))) = true
        · simp only [hl, if_true] at h
          rcases List.mem_append.mp h with h' | h'
          · exact Or.inl h'
          · rcases List.mem_singleton.mp h' with rfl
            exact Or.inr (Bool.not_eq_true _ ▸ hs)
        · simp only [hl, if_false] at h
          rcases ih (acc ++ [x]) r h with h' | h'
          · rcases List.mem_append.mp h' with h'' | h''
            · exact Or.inl h''
            · rcases List.mem_singleton.mp h'' with rfl
              exact Or.inr (Bool.not_eq_true _ ▸ hs)
          · exact Or.inr h'

/-- With the person and limit filters inactive, `filterLoop` is a plain
filter on the since-drop test. -/
theorem filterLoop_noPersonNoLimit (opts : ActivityListOptions)
    (hp : opts.personId ≤ 0) (hl : opts.limit ≤ 0) (rs : List Recording) :
    ∀ acc, filterLoop opts rs acc = acc ++ rs.filter (fun r => ! sinceDrops opts r) := by
  induction rs with
  | nil =>
    intro acc
    simp [filterLoop]
  | cons x xs ih =>
    intro acc
    have hpd : personDrops opts x = false := by
      simp only [personDrops, Bool.and_eq_false_iff, decide_eq_false_iff_not]
      left
      omega
    have hld : (decide (0 < opts.limit) && decide (opts.limit ≤ (acc.length + 1 : Int))) = false := by
      simp only [Bool.and_eq_false_iff, decide_eq_false_iff_not]
      left
      omega
    by_cases hs : sinceDrops opts x
    · simp [filterLoop, hs, ih]
    · simp [filterLoop, hs, hpd, hld, ih (acc ++ [x])]

/-- C3 counterexample. With `since = 5`, a recording whose `updatedAt` equals
5 is kept by `filterRecordings`, while the claim requires items with
`updatedAt == since` to be dropped. -/
theorem C3_counterexample :
    filterRecordings [⟨1, "t", "Todo", 5, ⟨7, "p"⟩⟩]
        { since := some 5, recordingTypes := [], personId := 0, limit := 0 } =
      [⟨1, "t", "Todo", 5, ⟨7, "p"⟩⟩] ∧
    (⟨1, "t", "Todo", 5, ⟨7, "p"⟩⟩ : Recording).updatedAt = 5 := by
  constructor
  · rfl
  · rfl

/-- C3 amended. The `since` filter is a strict lower bound that keeps
equality: every surviving item satisfies `since ≤ updatedAt` (whatever the
person/limit options), and with person and limit filters inactive the output
is exactly the input filtered to items not strictly before `since` — items
with `updatedAt = since` included. -/
theorem C3_since_filter_keeps_equal (recs : List Recording) (t : Nat)
    (opts : ActivityListOptions) (hs : opts.since = some t) :
    (∀ r ∈ filterRecordings recs opts, t ≤ r.updatedAt) ∧
    (opts.personId ≤ 0 → opts.limit ≤ 0 →
      filterRecordings recs opts = recs.filter (fun r => decide (t ≤ r.updatedAt))) := by
  constructor
  · intro r hr
    rcases filterLoop_mem opts recs [] r hr with h | h
    · exact absurd h (List.not_mem_nil r)
    · simp only [sinceDrops, hs, decide_eq_false_iff_not, Nat.not_lt] at h
      exact h
  · intro hp hl
    rw [filterRecordings, filterLoop_noPersonNoLimit opts hp hl recs [], List.nil_append]
    apply List.filter_congr
    intro r _
    simp [sinceDrops, hs, ← decide_not, Nat.not_lt]

/-- Witness for C3 at a concrete recording with `updatedAt = since`. -/
theorem C3_since_filter_keeps_equal_witness :
    filterRecordings [⟨1, "t", "Todo", 5, ⟨7, "p"⟩⟩]
        { since := some 5, recordingTypes := [], personId := 0, limit := 0 } =
      List.filter (fun r => decide (5 ≤ r.updatedAt)) [⟨1, "t", "Todo", 5, ⟨7, "p"⟩⟩] :=
  (C3_since_filter_keeps_equal _ 5 _ rfl).2 (by decide) (by decide)

/-! ## C9: stable descending sort -/

/-- Inserting permutes a cons. -/
theorem insertDesc_perm (x : Recording) (m : List Recording) :
    (insertDesc x m).Perm (x :: m) := by
  induction m with
  | nil => exact List.Perm.refl _
  | cons y ys ih =>
    by_cases h : y.updatedAt ≤ x.updatedAt
    · simp only [insertDesc, h, if_true]
      exact List.Perm.refl _
    · simp only [insertDesc, h, if_false]
      exact (ih.cons y).trans (List.Perm.swap x y ys)

/-- Inserting preserves descending `updatedAt` order. -/
theorem insertDesc_pairwise (x : Recording) (m : List Recording)
    (hm : List.Pairwise (fun a b => b.updatedAt ≤ a.updatedAt) m) :
    List.Pairwise (fun a b => b.updatedAt ≤ a.updatedAt) (insertDesc x m) := by
  induction m with
  | nil => simp [insertDesc]
  | cons y ys ih =>
    rcases List.pairwise_cons.mp hm with ⟨hy, hys⟩
    by_cases h : y.updatedAt ≤ x.updatedAt
    · simp only [insertDesc, h, if_true]
      refine List.pairwise_cons.mpr ⟨?_, hm⟩
      intro z hz
      rcases List.mem_cons.mp hz with rfl | hz'
      · exact h
      · exact le_trans (hy z hz') h
    · simp only [insertDesc, h, if_false]
      refine List.pairwise_cons.mpr ⟨?_, ih hys⟩
      intro z hz
      have hz2 := (insertDesc_perm x ys).mem_iff.mp hz
      rcases List.mem_cons.mp hz2 with rfl | hz'
      · exact le_of_lt (Nat.lt_of_not_le h)
      · exact hy z hz'

/-- Inserting is stable: filtering by any fixed timestamp commutes with the
insertion of a new (input-earlier) element. -/
theorem insertDesc_filter (t : Nat) (x : Recording) (m : List Recording) :
    (insertDesc x m).filter (fun r => decide (r.updatedAt = t)) =
      (x :: m).filter (fun r => decide (r.updatedAt = t)) := by
  induction m with
  | nil => rfl
  | cons y ys ih =>
    by_cases h : y.updatedAt ≤ x.updatedAt
    · simp only [insertDesc, h, if_true]
    · by_cases hx : x.updatedAt = t
      · have hy : ¬ y.updatedAt = t := fun hy => h (le_of_eq (hy.trans hx.symm))
        simp only [insertDesc, h, if_false]
        simp [List.filter_cons, hx, hy, ih]
      · by_cases hy : y.updatedAt = t
        · simp only [insertDesc, h, if_false]
          simp [List.filter_cons, hx, hy, ih]
        · simp only [insertDesc, h, if_false]
          simp [List.filter_cons, hx, hy, ih]

/-- C9. `sortRecordings` is a stable descending sort by `updatedAt`: the
output is a permutation of the input, is pairwise ordered with later
elements' `updatedAt` no greater than earlier ones', and for every fixed
timestamp the subsequence of items carrying that timestamp is exactly the
input's subsequence — equal timestamps keep their input (concatenation)
order. -/
theorem C9_sortRecordings_stable (l : List Recording) :
    (sortRecordings l).Perm l ∧
    List.Pairwise (fun a b => b.updatedAt ≤ a.updatedAt) (sortRecordings l) ∧
    ∀ t, (sortRecordings l).filter (fun r => decide (r.updatedAt = t)) =
      l.filter (fun r => decide (r.updatedAt = t)) := by
  induction l with
  | nil => exact ⟨List.Perm.refl _, List.Pairwise.nil, fun _ => rfl⟩
  | cons x xs ih =>
    rcases ih with ⟨hperm, hpair, hfilt⟩
    refine ⟨?_, ?_, ?_⟩
    · exact (insertDesc_perm x (sortRecordings xs)).trans (hperm.cons x)
    · exact insertDesc_pairwise x _ hpair
    · intro t
      rw [sortRecordings, insertDesc_filter t x (sortRecordings xs), List.filter_cons,
        List.filter_cons, hfilt t]

/-! ## C7: rate-limiter invariant and refill arithmetic -/

/-- `refill` preserves the token invariant. -/
theorem refill_inv (now : Nat) (rl : RateLimiter) (h : RateLimiterInv rl) :
    RateLimiterInv (refill now rl) := by
  rcases h with ⟨h0, h1⟩
  unfold refill
  by_cases hp : 0 < (now - rl.lastRefill) / rl.refillRate
  · simp only [hp, if_true]
    constructor
    · simp only [le_min_iff]
      constructor
      · have : (0 : Int) ≤ ((now - rl.lastRefill) / rl.refillRate : Nat) := Int.natCast_nonneg _
        omega
      · omega
    · exact min_le_right _ _
  · simp only [hp, if_false]
    exact ⟨h0, h1⟩

/-- `waitLoop` preserves the token invariant. -/
theorem waitLoop_inv (nows : List Nat) :
    ∀ rl, RateLimiterInv rl → RateLimiterInv (waitLoop nows rl) := by
  induction nows with
  | nil =>
    intro rl h
    exact h
  | cons now rest ih =>
    intro rl h
    have h' := refill_inv now rl h
    rcases h' with ⟨h0, h1⟩
    by_cases ht : 0 < (refill now rl).tokens
    · simp only [waitLoop, ht, if_true]
      exact ⟨by simp; omega, by simp; omega⟩
    · simp only [waitLoop, ht, if_false]
      exact ih _ ⟨h0, h1⟩

/-- C7. Every rate-limiter operation preserves `0 ≤ tokens ≤ maxTokens`, and
`refill` adds exactly `⌊elapsed / refillInterval⌋` tokens capped at
`maxTokens` while advancing `lastRefill` by `tokensToAdd * refillInterval` —
never past `now`, so fractional refill progress is kept — rather than
setting it to `now`. -/
theorem C7_rateLimiter_invariant (rl : RateLimiter) (now : Nat) (nows : List Nat)
    (h : RateLimiterInv rl) :
    RateLimiterInv (refill now rl) ∧
    RateLimiterInv (TryAcquire now rl).2 ∧
    RateLimiterInv (Reset now rl) ∧
    RateLimiterInv (waitLoop nows rl) ∧
    (refill now rl).tokens =
      min (rl.tokens + ((now - rl.lastRefill) / rl.refillRate : Nat)) rl.maxTokens ∧
    (refill now rl).lastRefill =
      rl.lastRefill + ((now - rl.lastRefill) / rl.refillRate) * rl.refillRate ∧
    (rl.lastRefill ≤ now → (refill now rl).lastRefill ≤ now) := by
  rcases h with ⟨h0, h1⟩
  refine ⟨refill_inv now rl ⟨h0, h1⟩, ?_, ⟨by simp [Reset]; omega, by simp [Reset]⟩,
    waitLoop_inv nows rl ⟨h0, h1⟩, ?_, ?_, ?_⟩
  · unfold TryAcquire
    have h' := refill_inv now rl ⟨h0, h1⟩
    rcases h' with ⟨g0, g1⟩
    by_cases ht : 0 < (refill now rl).tokens
    · simp only [ht, if_true]
      exact ⟨by simp; omega, by simp; omega⟩
    · simp only [ht, if_false]
      exact ⟨g0, g1⟩
  · unfold refill
    by_cases hp : 0 < (now - rl.lastRefill) / rl.refillRate
    · simp only [hp, if_true]
    · simp only [hp, if_false]
      have hz : (now - rl.lastRefill) / rl.refillRate = 0 := Nat.eq_zero_of_not_pos hp
      rw [hz]
      simp
      omega
  · unfold refill
    by_cases hp : 0 < (now - rl.lastRefill) / rl.refillRate
    · simp only [hp, if_true]
    · simp only [hp, if_false]
      have hz : (now - rl.lastRefill) / rl.refillRate = 0 := Nat.eq_zero_of_not_pos hp
      rw [hz]
      simp
  · intro hle
    unfold refill
    by_cases hp : 0 < (now - rl.lastRefill) / rl.refillRate
    · simp only [hp, if_true]
      have hmul : (now - rl.lastRefill) / rl.refillRate * rl.refillRate ≤ now - rl.lastRefill :=
        Nat.div_mul_le_self _ _
      omega
    · simp only [hp, if_false]
      exact hle

/-- Witness for C7 at a concrete limiter state and clock reading. -/
theorem C7_rateLimiter_invariant_witness :
    RateLimiterInv (refill 135 ⟨2, 3, 10, 100⟩) ∧
    (refill 135 (⟨2, 3, 10, 100⟩ : RateLimiter)).lastRefill = 130 := by
  have h := C7_rateLimiter_invariant ⟨2, 3, 10, 100⟩ 135 [135]
    ⟨by decide, by decide⟩
  refine ⟨h.1, ?_⟩
  rw [h.2.2.2.2.2.1]
  rfl

/-! ## C1: `GetAll` behaviour on a failing page -/

/-- Trace invariant of the `GetAll` page loop on the error path: when the
loop returns an error, the result slice extends `init` by exactly the
concatenation of the successfully decoded pages, one more request than
decoded pages was attempted, and the error is the wrapped request/decode
failure of the request following the decoded pages. -/
theorem getAllLoop_error_trace {α : Type} (oracle : Nat → FetchResult α)
    (next : String → String) (maxPages : Nat) (pageCheck : Option (List α → Bool))
    (init : List α) :
    ∀ (fuel : Nat) (path : String) (st : GetAllTrace α) (e : String) (st' : GetAllTrace α),
    st.result = init ++ st.pages.flatten →
    st.requests = st.pages.length →
    getAllLoop oracle next maxPages pageCheck fuel path st = (.error e, st') →
    st'.result = init ++ st'.pages.flatten ∧
    st'.requests = st'.pages.length + 1 ∧
    (∃ m, (oracle st'.pages.length = .requestError m ∧
            e = "failed to fetch paginated results: " ++ m) ∨
          (oracle st'.pages.length = .decodeError m ∧
            e = "failed to decode paginated results: " ++ m)) := by
  intro fuel
  induction fuel with
  | zero =>
    intro path st e st' h1 h2 h3
    simp [getAllLoop] at h3
  | succ n ih =>
    intro path st e st' h1 h2 h3
    by_cases hp : path = ""
    · simp [getAllLoop, hp] at h3
    · simp only [getAllLoop, hp, if_false] at h3
      cases ho : oracle st.requests with
      | requestError m =>
        rw [ho] at h3
        dsimp only at h3
        rw [Prod.mk.injEq] at h3
        obtain ⟨he, hst⟩ := h3
        injection he with he'
        subst hst
        refine ⟨h1, by simp [h2], ⟨m, Or.inl ⟨?_, he'.symm⟩⟩⟩
        show oracle st.pages.length = _
        rw [← h2]
        exact ho
      | decodeError m =>
        rw [ho] at h3
        dsimp only at h3
        rw [Prod.mk.injEq] at h3
        obtain ⟨he, hst⟩ := h3
        injection he with he'
        subst hst
        refine ⟨h1, by simp [h2], ⟨m, Or.inr ⟨?_, he'.symm⟩⟩⟩
        show oracle st.pages.length = _
        rw [← h2]
        exact ho
      | page items link =>
        rw [ho] at h3
        dsimp only at h3
        by_cases hempty : items.length = 0
        · rw [if_pos hempty] at h3
          simp at h3
        · rw [if_neg hempty] at h3
          by_cases hmax : 0 < maxPages ∧ maxPages ≤ (st.pages ++ [items]).length
          · rw [if_pos hmax] at h3
            simp at h3
          · rw [if_neg hmax] at h3
            by_cases hpc : pageCheckStops pageCheck items = true
            · rw [if_pos hpc] at h3
              simp at h3
            · rw [if_neg hpc] at h3
              refine ih (next link) _ e st' ?_ ?_ h3
              · simp [h1]
              · simp [h2]

/-- C1 counterexample. A two-page run whose second request fails: `GetAll`
returns the wrapped error, but the caller's result slice holds the first
page's items — not none of them, as the claim requires. (The repository's
own test of the cancellation error path asserts the same retention.) -/
theorem C1_counterexample :
    GetAll (α := Nat) ⟨.ptr, .slice⟩
        (fun n => if n = 0 then .page [1, 2] ("L") else .requestError ("boom"))
        (fun _ => "/p2") 0 none 5 ("/p1") [] =
      (.error ("failed to fetch paginated results: boom"),
        { waits := 2, requests := 2, pages := [[1, 2]], result := [1, 2] }) ∧
    ([1, 2] : List Nat) ≠ [] := by
  constructor
  · rfl
  · decide

/-- C1 amended. If any page's HTTP request or JSON decode fails, `GetAll`
propagates that page's wrapped error immediately — no item of the failing
page is appended and no further request is attempted — but the items of the
earlier successfully decoded pages remain appended to the caller's result
slice (callers such as `ListEvents` then discard the slice by returning
nil). -/
theorem C1_getAll_error_immediate {α : Type} (oracle : Nat → FetchResult α)
    (next : String → String) (maxPages : Nat) (pageCheck : Option (List α → Bool))
    (fuel : Nat) (path : String) (init : List α) (e : String) (st' : GetAllTrace α)
    (h : GetAll ⟨.ptr, .slice⟩ oracle next maxPages pageCheck fuel path init =
      (.error e, st')) :
    st'.result = init ++ st'.pages.flatten ∧
    st'.requests = st'.pages.length + 1 ∧
    (∃ m, (oracle st'.pages.length = .requestError m ∧
            e = "failed to fetch paginated results: " ++ m) ∨
          (oracle st'.pages.length = .decodeError m ∧
            e = "failed to decode paginated results: " ++ m)) := by
  have h' : getAllLoop oracle next maxPages pageCheck fuel path
      { waits := 0, requests := 0, pages := [], result := init } = (.error e, st') := by
    simpa [GetAll, isPtrToSlice] using h
  exact getAllLoop_error_trace oracle next maxPages pageCheck init fuel path _ e st'
    (by simp) (by simp) h'

/-- Witness for C1's amended statement at the two-page failing run. -/
theorem C1_getAll_error_immediate_witness :
    ({ waits := 2, requests := 2, pages := [[1, 2]], result := [1, 2] } :
        GetAllTrace Nat).result =
      [] ++ ([[1, 2]] : List (List Nat)).flatten :=
  (C1_getAll_error_immediate
    (fun n => if n = 0 then .page [1, 2] ("L") else .requestError ("boom"))
    (fun _ => "/p2") 0 none 5 ("/p1") [] _ _ rfl).1

/-! ## C8: Link-header next extraction

On the header `"<u>="` the Go parameter loop gets stuck: after the URL the
scan index points at `'='`, the whitespace/semicolon skip does not move, the
parameter-name scan stops immediately (`s[i] = '='`), and the `i >
paramStart` guard skips the body — the loop repeats with identical state
forever. The fuel-indexed port returns `none` for every fuel, i.e. the parse
has no terminating execution. -/

/-- On the stuck header, the whitespace/semicolon skip at index 3 does not
advance. -/
theorem skipWSSemis_stuck : skipWSSemis #['<', 'u', '>', '='] 3 = 3 := by
  rw [skipWSSemis]
  decide

/-- On the stuck header, the parameter-name scan at index 3 stops at once. -/
theorem scanParamName_stuck : scanParamName #['<', 'u', '>', '='] 3 = 3 := by
  rw [scanParamName]
  decide

/-- Initial whitespace skip of the stuck header. -/
theorem skipLinkWS_stuck : skipLinkWS #['<', 'u', '>', '='] 0 = 0 := by
  rw [skipLinkWS]
  decide

/-- URL scan of the stuck header finds `'>'` at index 2. -/
theorem scanUntilGT_stuck : scanUntilGT #['<', 'u', '>', '='] 1 = 2 := by
  rw [scanUntilGT, dif_pos (by decide), if_neg (by decide), scanUntilGT]
  decide

/-- The parameter loop re-enters the identical state at index 3 and exhausts
any amount of fuel. -/
theorem parseParams_stuck : ∀ (fuel : Nat) (ps : List (String × String)),
    parseParams #['<', 'u', '>', '='] fuel 3 ps = none := by
  intro fuel
  induction fuel with
  | zero =>
    intro ps
    rfl
  | succ n ih =>
    intro ps
    rw [parseParams, skipWSSemis_stuck]
    rw [dif_pos (by decide), if_neg (by decide), scanParamName_stuck, if_neg (by decide)]
    exact ih ps

/-- The entry loop on the stuck header diverges for every fuel. -/
theorem parseEntriesLoop_stuck : ∀ (fuel : Nat),
    parseEntriesLoop #['<', 'u', '>', '='] fuel 0 [] = none := by
  intro fuel
  cases fuel with
  | zero => rfl
  | succ n =>
    rw [parseEntriesLoop, skipLinkWS_stuck]
    rw [dif_pos (by decide), if_pos (by decide), scanUntilGT_stuck]
    simp [parseParams_stuck n]

/-- C8. `parseNextLinkURL` has no terminating execution on the raw header
`"<u>="`: for every fuel the fuel-indexed model returns `none` (the Go loop
never advances past the `'='`), so on this input the function returns
neither a next-URL nor the empty string — against both the claim and the
parser's documented graceful degradation on malformed input. -/
theorem C8_parseNextLinkURL_nonterminating :
    ∀ (fuel : Nat), parseNextLinkURL fuel ("<u>=") = none := by
  intro fuel
  rw [parseNextLinkURL, if_neg (by decide)]
  have h : parseLinkHeaderEntries fuel ("<u>=") = none := by
    show parseEntriesLoop ("<u>=".data.toArray) fuel 0 [] = none
    have harr : ("<u>=".data.toArray) = #['<', 'u', '>', '='] := by rfl
    rw [harr]
    exact parseEntriesLoop_stuck fuel
  rw [h]

/-! ## C6: converter self-consistency -/

/-- A single-character pattern is contained iff the character occurs. -/
theorem containsL_single_false (c : Char) (l : List Char)
    (h : containsL [c] l = false) : ∀ d ∈ l, ¬ d = c := by
  induction l with
  | nil => intro d hd; exact absurd hd (List.not_mem_nil d)
  | cons d ds ih =>
    simp only [containsL, List.isPrefixOf, Bool.or_eq_false_iff, Bool.and_eq_false_iff] at h
    intro x hx
    rcases List.mem_cons.mp hx with rfl | hx'
    · rcases h.1 with h' | h'
      · intro he
        rw [he] at h'
        simp at h'
      · simp [List.isPrefixOf] at h'
    · exact ih h.2 x hx'

/-- The step equation of `attrScan` at a position whose tail does not start
with `'a'` + one more character: the scan just advances. -/
theorem attrScan_cons_step (hd : Char) (rest : List Char)
    (hshape : ∀ (d : Char) (rest' : List Char), rest = 'a' :: d :: rest' → False) :
    attrScan (hd :: rest) = attrScan rest := by
  rw [attrScan.eq_def]
  split
  · rename_i heq
    cases heq
  · rename_i c d rest' heq
    injection heq with e1 e2
    exact absurd e2 (fun e => hshape d rest' e)
  · rename_i head tl heq
    injection heq with e1 e2
    rw [e2]

/-- The tag scan finds nothing in a string without `'<'`. -/
theorem findTags_no_lt (l : List Char) (h : ∀ c ∈ l, ¬ c = '<') : findTags l = [] := by
  induction l using findTags.induct with
  | case1 => rw [findTags]
  | case2 cs name k htag ih => exact absurd rfl (h '<' (List.mem_cons_self _ _))
  | case3 cs htag ih => exact absurd rfl (h '<' (List.mem_cons_self _ _))
  | case4 c cs hc ih =>
    rw [findTags, if_neg hc]
    exact ih (fun d hd => h d (List.mem_cons_of_mem c hd))

/-- The `<a>` attribute scan finds nothing in a string without `'<'`. -/
theorem attrScan_no_lt (l : List Char) (h : ∀ c ∈ l, ¬ c = '<') : attrScan l = [] := by
  induction l using attrScan.induct with
  | case1 => rw [attrScan]
  | case2 c d rest' hcd name k hscan ih =>
    exact absurd hcd.1 (h c (List.mem_cons_self _ _))
  | case3 c d rest' hcd hscan ih =>
    exact absurd hcd.1 (h c (List.mem_cons_self _ _))
  | case4 c d rest' hcd ih =>
    rw [attrScan, if_neg hcd]
    exact ih (fun x hx => h x (List.mem_cons_of_mem c hx))
  | case5 hd rest hshape ih =>
    rw [attrScan_cons_step hd rest (fun d rest' e => hshape d rest' e)]
    exact ih (fun x hx => h x (List.mem_cons_of_mem hd hx))

/-- The allow-list validator accepts any string without `'<'`. -/
theorem validate_no_lt (s : String) (h : ∀ c ∈ s.data, ¬ c = '<') :
    ValidateBasecampHTML s = none := by
  by_cases hs : s = ""
  · rw [ValidateBasecampHTML, if_pos hs]
  · rw [ValidateBasecampHTML, if_neg hs, findTags_no_lt s.data h, attrScan_no_lt s.data h]
    rfl

/-- A string accepted by the simple-plain-text fast path contains no `'<'`. -/
theorem isSimple_no_lt (s : String) (h : isSimplePlainText s = true) :
    ∀ c ∈ s.data, ¬ c = '<' := by
  rw [isSimplePlainText] at h
  split_ifs at h with h1 h2 h3 h4 h5
  have hlt : containsSubstring s ("<") = false := by
    by_contra hq
    exact h3 (List.any_eq_true.mpr ⟨"<", by decide, by
      simpa using Bool.not_eq_false _ ▸ hq⟩)
  exact containsL_single_false '<' s.data (by simpa [containsSubstring] using hlt)

/-- C6. Converter self-consistency: whenever `MarkdownToRichText` returns a
result without error — through the empty path, the single-line plain-text
fast path, or the full render-and-rewrite path — `ValidateBasecampHTML`
accepts that result. -/
theorem C6_converter_selfconsistent (render : String → Except String String)
    (input out : String) (h : MarkdownToRichText render input = .ok out) :
    ValidateBasecampHTML out = none := by
  simp only [MarkdownToRichText] at h
  by_cases h1 : trimSpace input = ""
  · rw [if_pos h1] at h
    injection h with h'
    rw [← h']
    rfl
  · rw [if_neg h1] at h
    by_cases h2 : isSimplePlainText (trimSpace input) = true
    · rw [if_pos h2] at h
      injection h with h'
      rw [← h']
      exact validate_no_lt _ (isSimple_no_lt _ h2)
    · rw [if_neg h2] at h
      cases hr : render (trimSpace input) with
      | error e =>
        rw [hr] at h
        exact absurd h (by simp)
      | ok html =>
        rw [hr] at h
        dsimp only at h
        by_cases h3 : trimSpace (postProcessHTML html) = "" ∨
            trimSpace (postProcessHTML html) = "<div></div>"
        · rw [if_pos h3] at h
          injection h with h'
          rw [← h']
          rfl
        · rw [if_neg h3] at h
          cases hv : ValidateBasecampHTML (trimSpace (postProcessHTML html)) with
          | some err =>
            rw [hv] at h
            exact absurd h (by simp)
          | none =>
            rw [hv] at h
            injection h with h'
            rw [← h']
            exact hv

/-- Witness for C6 on the plain-text fast path. -/
theorem C6_converter_selfconsistent_witness : ValidateBasecampHTML ("hello") = none :=
  C6_converter_selfconsistent (fun _ => .error ("unused")) "hello" "hello" rfl

/-! ## C5: the validator's `<a>` attribute check

Helper lemmas for symbolic evaluation of the scans on strings containing an
abstract attribute name `k` (a non-empty `\w+` string). -/

/-- `l.asString.data` is `l` itself. -/
theorem data_asString (l : List Char) : l.asString.data = l :=
  List.toList_asString l

/-- A word character (`\w`) is not `'>'`. -/
theorem wordChar_ne_gt (c : Char) (h : isWordChar c = true) : ¬ c = '>' := by
  intro e
  rw [e] at h
  exact absurd h (by decide)

/-- A word character is not `'<'`. -/
theorem wordChar_ne_lt (c : Char) (h : isWordChar c = true) : ¬ c = '<' := by
  intro e
  rw [e] at h
  exact absurd h (by decide)

/-- A word character is not `'='`. -/
theorem wordChar_ne_eq (c : Char) (h : isWordChar c = true) : ¬ c = '=' := by
  intro e
  rw [e] at h
  exact absurd h (by decide)

/-- A word character is not regexp whitespace. -/
theorem wordChar_not_ws (c : Char) (h : isWordChar c = true) : isRegexSpace c = false := by
  by_contra hws
  rw [Bool.not_eq_false] at hws
  simp only [isRegexSpace, Bool.or_eq_true, decide_eq_true_eq] at hws
  rcases hws with (((e | e) | e) | e) | e <;> rw [e] at h <;> exact absurd h (by decide)

/-- `takeWhile` passes over a block whose characters all satisfy `p`. -/
theorem takeWhile_all (p : Char → Bool) (l m : List Char) (h : ∀ c ∈ l, p c = true) :
    (l ++ m).takeWhile p = l ++ m.takeWhile p := by
  induction l with
  | nil => simp
  | cons c cs ih =>
    rw [List.cons_append, List.takeWhile_cons, if_pos (h c (List.mem_cons_self _ _)),
      List.cons_append, ih (fun d hd => h d (List.mem_cons_of_mem c hd))]

/-- `aTagScan` passes over a block of word characters when no whitespace
precedes them: no candidate can start inside the block. -/
theorem aTagScan_words (l : List Char) (hw : ∀ c ∈ l, isWordChar c = true) :
    ∀ (m : List Char) (pos : Nat) (best : Option (List Char × Nat)),
    aTagScan (l ++ m) pos false best = aTagScan m (pos + l.length) false best := by
  induction l with
  | nil =>
    intro m pos best
    simp
  | cons c cs ih =>
    intro m pos best
    have hcw := hw c (List.mem_cons_self _ _)
    rw [List.cons_append, aTagScan, if_neg (wordChar_ne_gt c hcw)]
    rw [if_neg (by simp), wordChar_not_ws c hcw]
    rw [ih (fun d hd => hw d (List.mem_cons_of_mem c hd)) m (pos + 1) best]
    rw [show pos + 1 + cs.length = pos + (cs.length + 1) from by omega]
    rfl

/-- `aTagScan` at a word character in region position 1 (directly after the
mandatory leading whitespace): the position constraint rejects the
candidate. -/
theorem aTagScan_word_pos1 (c : Char) (cs : List Char) (hc : isWordChar c = true)
    (best : Option (List Char × Nat)) :
    aTagScan (c :: cs) 1 true best = aTagScan cs 2 false best := by
  rw [aTagScan, if_neg (wordChar_ne_gt c hc), if_neg (by omega), wordChar_not_ws c hc]

/-- `aTagScan` at an eligible word-run followed by `'='`: the candidate is
recorded and scanning resumes after the `'='` with the new best. -/
theorem aTagScan_candidate (c₀ : Char) (krest rest₂ : List Char) (pos : Nat)
    (best : Option (List Char × Nat)) (hk : isWordChar c₀ = true)
    (hrest : ∀ c ∈ krest, isWordChar c = true) (hpos : 2 ≤ pos) :
    aTagScan (c₀ :: (krest ++ ('=' :: rest₂))) pos true best =
      aTagScan rest₂ (pos + krest.length + 2) false
        (some (c₀ :: krest, pos + krest.length + 2)) := by
  rw [aTagScan, if_neg (wordChar_ne_gt c₀ hk), if_pos ⟨rfl, hpos, hk⟩]
  have hrun : (krest ++ ('=' :: rest₂)).takeWhile isWordChar = krest := by
    rw [takeWhile_all isWordChar krest _ hrest, List.takeWhile_cons,
      if_neg (by decide), List.append_nil]
  simp only [hrun, List.drop_left, List.head?_cons, wordChar_not_ws c₀ hk,
    if_pos rfl]
  rw [aTagScan_words krest hrest ('=' :: rest₂) (pos + 1)]
  rw [aTagScan, if_neg (by decide), if_neg (by simp),
    show isRegexSpace '=' = false from by decide]
  rw [show pos + 1 + krest.length + 1 = pos + krest.length + 2 from by omega]
  simp

/-- Stepping `findTags` over a non-`'<'` character. -/
theorem findTags_cons_ne_lt (x : Char) (T : List Char) (hx : ¬ x = '<') :
    findTags (x :: T) = findTags T := by
  rw [findTags, if_neg hx]

/-- `findTags` ignores a block without `'<'`. -/
theorem findTags_append_no_lt (l m : List Char) (h : ∀ c ∈ l, ¬ c = '<') :
    findTags (l ++ m) = findTags m := by
  induction l with
  | nil => simp
  | cons c cs ih =>
    rw [List.cons_append, findTags_cons_ne_lt c _ (h c (List.mem_cons_self _ _))]
    exact ih (fun d hd => h d (List.mem_cons_of_mem c hd))

/-- Stepping `attrScan` over a non-`'<'` character, whatever the tail. -/
theorem attrScan_cons_ne_lt (x : Char) (T : List Char) (hx : ¬ x = '<') :
    attrScan (x :: T) = attrScan T := by
  rcases T with _ | ⟨y, ys⟩
  · rw [attrScan_cons_step x [] (by intro d r e; cases e), attrScan]
  · by_cases hy : y = 'a'
    · subst hy
      rcases ys with _ | ⟨d, rest'⟩
      · rw [attrScan_cons_step x ['a'] (by intro d r e; injection e with e1 e2; cases e2)]
      · rw [attrScan, if_neg (fun hc => hx hc.1)]
    · rw [attrScan_cons_step x (y :: ys)
        (by intro d r e; injection e with e1 e2; exact hy e1)]

/-- `attrScan` ignores a block without `'<'`. -/
theorem attrScan_append_no_lt (l m : List Char) (h : ∀ c ∈ l, ¬ c = '<') :
    attrScan (l ++ m) = attrScan m := by
  induction l with
  | nil => simp
  | cons c cs ih =>
    rw [List.cons_append, attrScan_cons_ne_lt c _ (h c (List.mem_cons_self _ _))]
    exact ih (fun d hd => h d (List.mem_cons_of_mem c hd))

/-- One `aTagScan` step that records no candidate. -/
theorem aTagScan_step (c : Char) (cs : List Char) (pos : Nat) (prevWS b : Bool)
    (best : Option (List Char × Nat)) (hc : ¬ c = '>')
    (hcand : ¬ (prevWS = true ∧ 2 ≤ pos ∧ isWordChar c = true))
    (hb : isRegexSpace c = b) :
    aTagScan (c :: cs) pos prevWS best = aTagScan cs (pos + 1) b best := by
  rw [aTagScan, if_neg hc, if_neg hcand, hb]

/-- The attribute regexp's scan over a region ` href="u" k="v">…`: the word
run `k` after the second whitespace run is an eligible capture (region
position 10 ≥ 2), and the scan reports it. -/
theorem aTagScan_hrefThenAttr (c₀ : Char) (krest R : List Char)
    (hw : ∀ c ∈ (c₀ :: krest), isWordChar c = true) :
    aTagScan (' ' :: 'h' :: 'r' :: 'e' :: 'f' :: '=' :: '"' :: 'u' :: '"' :: ' ' ::
        ((c₀ :: krest) ++ ('=' :: ('"' :: 'v' :: '"' :: '>' :: R)))) 0 false none =
      some (c₀ :: krest, krest.length + 12) := by
  rw [aTagScan_step ' ' _ 0 false true none (by decide) (by decide) (by decide)]
  rw [aTagScan_step 'h' _ 1 true false none (by decide) (by decide) (by decide)]
  rw [aTagScan_step 'r' _ 2 false false none (by decide) (by decide) (by decide)]
  rw [aTagScan_step 'e' _ 3 false false none (by decide) (by decide) (by decide)]
  rw [aTagScan_step 'f' _ 4 false false none (by decide) (by decide) (by decide)]
  rw [aTagScan_step '=' _ 5 false false none (by decide) (by decide) (by decide)]
  rw [aTagScan_step '"' _ 6 false false none (by decide) (by decide) (by decide)]
  rw [aTagScan_step 'u' _ 7 false false none (by decide) (by decide) (by decide)]
  rw [aTagScan_step '"' _ 8 false false none (by decide) (by decide) (by decide)]
  rw [aTagScan_step ' ' _ 9 false true none (by decide) (by decide) (by decide)]
  rw [List.cons_append]
  rw [aTagScan_candidate c₀ krest _ 10 none (hw c₀ (List.mem_cons_self _ _))
    (fun c hc => hw c (List.mem_cons_of_mem c₀ hc)) (by omega)]
  rw [aTagScan_step '"' _ _ false false _ (by decide) (by simp) (by decide)]
  rw [aTagScan_step 'v' _ _ false false _ (by decide) (by simp) (by decide)]
  rw [aTagScan_step '"' _ _ false false _ (by decide) (by simp) (by decide)]
  rw [aTagScan, if_pos rfl]
  rw [show 10 + krest.length + 2 = krest.length + 12 from by omega]

/-- The attribute regexp's scan over a region ` k="v">…` with a single
attribute: the word run starts at region position 1, inside the mandatory
leading `\s+`, so no capture is eligible and the scan reports nothing. -/
theorem aTagScan_soleAttr (c₀ : Char) (krest R : List Char)
    (hw : ∀ c ∈ (c₀ :: krest), isWordChar c = true) :
    aTagScan (' ' :: ((c₀ :: krest) ++ ('=' :: ('"' :: 'v' :: '"' :: '>' :: R)))) 0 false none =
      none := by
  rw [aTagScan_step ' ' _ 0 false true none (by decide) (by decide) (by decide)]
  rw [List.cons_append]
  rw [aTagScan_word_pos1 c₀ _ (hw c₀ (List.mem_cons_self _ _)) none]
  rw [aTagScan_words krest (fun c hc => hw c (List.mem_cons_of_mem c₀ hc)) _ 2 none]
  rw [aTagScan_step '=' _ _ false false _ (by decide) (by simp) (by decide)]
  rw [aTagScan_step '"' _ _ false false _ (by decide) (by simp) (by decide)]
  rw [aTagScan_step 'v' _ _ false false _ (by decide) (by simp) (by decide)]
  rw [aTagScan_step '"' _ _ false false _ (by decide) (by simp) (by decide)]
  rw [aTagScan, if_pos rfl]

/-- The tag regexp on a document `<a …>C`: the opening tag captures name
`"a"` (the `[^>]*` part runs to the first `'>'`), and scanning resumes in
`C`. -/
theorem findTags_singleATag (G₁ C : List Char) (hG : ∀ c ∈ G₁, ¬ c = '>') :
    findTags ('<' :: 'a' :: ((' ' :: G₁) ++ ('>' :: C))) = "a" :: findTags C := by
  rw [findTags, if_pos rfl]
  have hgap : ((' ' :: G₁) ++ ('>' :: C)).takeWhile (fun d => ¬ d = '>') = ' ' :: G₁ := by
    rw [List.cons_append, List.takeWhile_cons, if_pos (by decide)]
    rw [takeWhile_all _ G₁ _ (fun c hc => by simpa using hG c hc)]
    rw [List.takeWhile_cons, if_neg (by decide), List.append_nil]
  have htag : tagNameFrom 0 'a' ((' ' :: G₁) ++ ('>' :: C)) = some ("a", G₁.length + 3) := by
    rw [tagNameFrom]
    simp only [List.cons_append, List.takeWhile_cons,
      if_neg (by decide : ¬ isTagNameChar ' ' = true)]
    simp only [List.length_nil, List.drop_zero]
    rw [show List.takeWhile (fun d => decide ¬ d = '>') (' ' :: (G₁ ++ '>' :: C)) = ' ' :: G₁ from
      by simpa using hgap]
    simp only [List.length_cons, List.drop_succ_cons, List.drop_left]
    simp only [Option.some.injEq, Prod.mk.injEq, List.asString_eq]
    exact ⟨by decide, by omega⟩
  rw [show tagFrom ('a' :: ((' ' :: G₁) ++ ('>' :: C))) =
      tagNameFrom 0 'a' ((' ' :: G₁) ++ ('>' :: C)) from rfl, htag]
  have hdrop : ('a' :: ((' ' :: G₁) ++ ('>' :: C))).drop (G₁.length + 3) = C := by
    rw [show ('a' :: ((' ' :: G₁) ++ ('>' :: C))) = ('a' :: ' ' :: G₁) ++ ('>' :: C) from
      by simp]
    rw [show G₁.length + 3 = ('a' :: ' ' :: G₁ : List Char).length + 1 from by
      simp [List.length_cons]]
    rw [List.drop_append, List.drop_succ_cons, List.drop_zero]
  dsimp only
  rw [hdrop]

/-- The tag scan of the shared document tail `t</a>`: one closing tag. -/
theorem findTags_docTail : findTags ('t' :: '<' :: '/' :: 'a' :: '>' :: []) = ["a"] := by
  rw [findTags_cons_ne_lt 't' _ (by decide)]
  rw [findTags, if_pos rfl]
  rw [show tagFrom ('/' :: 'a' :: '>' :: []) = some ("a", 3) from by decide]
  dsimp only
  rw [show (('/' : Char) :: 'a' :: '>' :: []).drop 3 = [] from by decide]
  rw [findTags]

/-- The attribute scan of the region tail `"v">t</a>`: nothing to match. -/
theorem attrScan_docTail :
    attrScan ('"' :: 'v' :: '"' :: '>' :: 't' :: '<' :: '/' :: 'a' :: '>' :: []) = [] := by
  rw [attrScan_cons_ne_lt '"' _ (by decide), attrScan_cons_ne_lt 'v' _ (by decide),
    attrScan_cons_ne_lt '"' _ (by decide), attrScan_cons_ne_lt '>' _ (by decide),
    attrScan_cons_ne_lt 't' _ (by decide)]
  rw [attrScan_cons_step '<' _ (by intro d r e; injection e with e1 e2; exact absurd e1 (by decide))]
  rw [attrScan_cons_ne_lt '/' _ (by decide), attrScan_cons_ne_lt 'a' _ (by decide),
    attrScan_cons_ne_lt '>' _ (by decide), attrScan]

/-- C5 counterexample. An `<a>` tag whose only attribute is `class` — not
`href` — passes `ValidateBasecampHTML` with no error, while the claim
requires an error naming the attribute: the attribute regexp
`<a\s+[^>]*\s+(\w+)=` cannot match a sole attribute (it needs two
whitespace runs between `<a` and the captured name). -/
theorem C5_counterexample : ValidateBasecampHTML ("<a class=\"v\">t</a>") = none := by
  have h1 : findTags ("<a class=\"v\">t</a>").data = ["a", "a"] := by
    rw [show ("<a class=\"v\">t</a>").data =
      '<' :: 'a' :: ((' ' :: ('c' :: 'l' :: 'a' :: 's' :: 's' :: '=' :: '"' :: 'v' :: '"' :: [])) ++
        ('>' :: ('t' :: '<' :: '/' :: 'a' :: '>' :: []))) from rfl]
    rw [findTags_singleATag _ _ (by decide), findTags_docTail]
  have h2 : attrScan ("<a class=\"v\">t</a>").data = [] := by
    rw [show ("<a class=\"v\">t</a>").data =
      '<' :: 'a' :: ' ' :: (('c' :: 'l' :: 'a' :: 's' :: 's' :: []) ++
        ('=' :: ('"' :: 'v' :: '"' :: '>' :: ('t' :: '<' :: '/' :: 'a' :: '>' :: [])))) from rfl]
    rw [attrScan, if_pos ⟨rfl, by decide⟩]
    rw [aTagScan_soleAttr 'c' ('l' :: 'a' :: 's' :: 's' :: []) _ (by decide)]
    dsimp only
    rw [attrScan_cons_ne_lt 'a' _ (by decide), attrScan_cons_ne_lt ' ' _ (by decide)]
    rw [attrScan_append_no_lt ('c' :: 'l' :: 'a' :: 's' :: 's' :: []) _ (by decide)]
    rw [attrScan_cons_ne_lt '=' _ (by decide), attrScan_cons_ne_lt '"' _ (by decide),
      attrScan_cons_ne_lt 'v' _ (by decide), attrScan_cons_ne_lt '"' _ (by decide),
      attrScan_cons_ne_lt '>' _ (by decide), attrScan_cons_ne_lt 't' _ (by decide)]
    rw [attrScan_cons_step '<' _
      (by intro d r e; injection e with e1 e2; exact absurd e1 (by decide))]
    rw [attrScan_cons_ne_lt '/' _ (by decide), attrScan_cons_ne_lt 'a' _ (by decide),
      attrScan_cons_ne_lt '>' _ (by decide), attrScan]
  rw [ValidateBasecampHTML, if_neg (by decide), h1, h2]
  rfl

/-- C5 (amended). The `<a>` attribute check only sees attributes captured by
the regexp `<a\s+[^>]*\s+(\w+)=`, which requires a second whitespace run
before the captured name: an attribute in second position (here after
`href="u"`) whose lowercase name `k` is not `href` yields the error naming
`k`, while an `<a>` tag whose sole attribute is that same `k` passes with no
error. -/
theorem C5_aTag_secondAttr_only (k : String) (hne : ¬ k = "")
    (hw : ∀ c ∈ k.data, isWordChar c = true)
    (hl : toLowerStr k = k) (hh : ¬ k = "href") :
    ValidateBasecampHTML ("<a href=\"u\" " ++ k ++ "=\"v\">t</a>") =
      some ("unsupported attribute '" ++ k ++ "' on <a> tag (only 'href' is allowed)") ∧
    ValidateBasecampHTML ("<a " ++ k ++ "=\"v\">t</a>") = none := by
  have hd : k.data ≠ [] := fun e => hne (String.ext (e.trans rfl))
  obtain ⟨c₀, krest, hcons⟩ := List.exists_cons_of_ne_nil hd
  have hw' : ∀ c ∈ (c₀ :: krest), isWordChar c = true := by rw [← hcons]; exact hw
  have hask : (c₀ :: krest).asString = k := String.ext (by rw [data_asString, hcons])
  have hTail : ∀ c ∈ (['=', '"', 'v', '"'] : List Char), ¬ c = '>' := by decide
  have hGk : ∀ c ∈ (k.data ++ ['=', '"', 'v', '"'] : List Char), ¬ c = '>' := by
    intro c hc
    rcases List.mem_append.mp hc with h | h
    · exact wordChar_ne_gt c (hw c h)
    · exact hTail c h
  constructor
  · -- second-position attribute: captured, checked, rejected
    have hdata1 : ("<a href=\"u\" " ++ k ++ "=\"v\">t</a>").data =
        '<' :: 'a' :: ' ' :: 'h' :: 'r' :: 'e' :: 'f' :: '=' :: '"' :: 'u' :: '"' :: ' ' ::
          (k.data ++ ('=' :: '"' :: 'v' :: '"' :: '>' :: 't' :: '<' :: '/' :: 'a' :: '>' :: [])) :=
      rfl
    have hfind1 : findTags ("<a href=\"u\" " ++ k ++ "=\"v\">t</a>").data = ["a", "a"] := by
      rw [hdata1]
      rw [show ('<' :: 'a' :: ' ' :: 'h' :: 'r' :: 'e' :: 'f' :: '=' :: '"' :: 'u' :: '"' :: ' ' ::
          (k.data ++ ('=' :: '"' :: 'v' :: '"' :: '>' :: 't' :: '<' :: '/' :: 'a' :: '>' :: [])) :
          List Char) =
        '<' :: 'a' :: ((' ' :: (['h', 'r', 'e', 'f', '=', '"', 'u', '"', ' '] ++
          (k.data ++ ['=', '"', 'v', '"']))) ++
          ('>' :: ('t' :: '<' :: '/' :: 'a' :: '>' :: []))) from by
        simp [List.append_assoc]]
      rw [findTags_singleATag _ _ (by
        intro c hc
        rcases List.mem_append.mp hc with h | h
        · exact fun e => by rw [e] at h; revert h; decide
        · exact hGk c h)]
      rw [findTags_docTail]
    have hattr1 : attrScan ("<a href=\"u\" " ++ k ++ "=\"v\">t</a>").data = [k] := by
      rw [hdata1, hcons]
      rw [attrScan, if_pos ⟨rfl, by decide⟩]
      rw [aTagScan_hrefThenAttr c₀ krest _ hw']
      dsimp only
      rw [show (' ' :: 'h' :: 'r' :: 'e' :: 'f' :: '=' :: '"' :: 'u' :: '"' :: ' ' ::
          ((c₀ :: krest) ++ ('=' :: '"' :: 'v' :: '"' :: '>' :: 't' :: '<' :: '/' :: 'a' :: '>' ::
            [])) : List Char) =
        ((' ' :: 'h' :: 'r' :: 'e' :: 'f' :: '=' :: '"' :: 'u' :: '"' :: ' ' :: c₀ :: krest) ++
          ('=' :: [])) ++
          ('"' :: 'v' :: '"' :: '>' :: 't' :: '<' :: '/' :: 'a' :: '>' :: []) from by
        simp [List.append_assoc]]
      rw [show krest.length + 12 =
          (((' ' :: 'h' :: 'r' :: 'e' :: 'f' :: '=' :: '"' :: 'u' :: '"' :: ' ' :: c₀ :: krest) ++
            ('=' :: [])) : List Char).length from by
        simp [List.length_append, List.length_cons]]
      rw [List.drop_left, attrScan_docTail, hask]
    have hmsg : firstBadAttr [k] =
        some ("unsupported attribute '" ++ k ++ "' on <a> tag (only 'href' is allowed)") := by
      rw [firstBadAttr]
      simp only [hl]
      rw [if_neg hh]
    have hnonempty : ¬ ("<a href=\"u\" " ++ k ++ "=\"v\">t</a>") = "" := by
      intro e
      have h := congrArg String.data e
      rw [hdata1] at h
      exact absurd h (by simp)
    rw [ValidateBasecampHTML, if_neg hnonempty, hfind1,
      show firstUnsupportedTag ["a", "a"] = none from by decide]
    rw [hattr1]
    exact hmsg
  · -- sole attribute: never captured, never checked
    have hdata2 : ("<a " ++ k ++ "=\"v\">t</a>").data =
        '<' :: 'a' :: ' ' ::
          (k.data ++ ('=' :: '"' :: 'v' :: '"' :: '>' :: 't' :: '<' :: '/' :: 'a' :: '>' :: [])) :=
      rfl
    have hfind2 : findTags ("<a " ++ k ++ "=\"v\">t</a>").data = ["a", "a"] := by
      rw [hdata2]
      rw [show ('<' :: 'a' :: ' ' ::
          (k.data ++ ('=' :: '"' :: 'v' :: '"' :: '>' :: 't' :: '<' :: '/' :: 'a' :: '>' :: [])) :
          List Char) =
        '<' :: 'a' :: ((' ' :: (k.data ++ ['=', '"', 'v', '"'])) ++
          ('>' :: ('t' :: '<' :: '/' :: 'a' :: '>' :: []))) from by
        simp [List.append_assoc]]
      rw [findTags_singleATag _ _ hGk, findTags_docTail]
    have hattr2 : attrScan ("<a " ++ k ++ "=\"v\">t</a>").data = [] := by
      rw [hdata2, hcons]
      rw [attrScan, if_pos ⟨rfl, by decide⟩]
      rw [aTagScan_soleAttr c₀ krest _ hw']
      dsimp only
      rw [attrScan_cons_ne_lt 'a' _ (by decide), attrScan_cons_ne_lt ' ' _ (by decide)]
      rw [attrScan_append_no_lt (c₀ :: krest) _ (fun c hc => wordChar_ne_lt c (hw' c hc))]
      rw [attrScan_cons_ne_lt '=' _ (by decide), attrScan_docTail]
    have hnonempty : ¬ ("<a " ++ k ++ "=\"v\">t</a>") = "" := by
      intro e
      have h := congrArg String.data e
      rw [hdata2] at h
      exact absurd h (by simp)
    rw [ValidateBasecampHTML, if_neg hnonempty, hfind2,
      show firstUnsupportedTag ["a", "a"] = none from by decide]
    rw [hattr2, firstBadAttr]

/-- C5 witness: `k = "class"` at the amended theorem. -/
theorem C5_aTag_secondAttr_only_witness :
    ValidateBasecampHTML ("<a href=\"u\" class=\"v\">t</a>") =
      some ("unsupported attribute 'class' on <a> tag (only 'href' is allowed)") ∧
    ValidateBasecampHTML ("<a class=\"v\">t</a>") = none := by
  have h := C5_aTag_secondAttr_only ("class") (by decide) (by decide) (by decide) (by decide)
  exact h

end Bc4
